import Mathlib

/-!
Verification of the google-cloud-workflow-emulator core against its
natural-language specification.  The Go sources are shallowly embedded:
Go `int64` becomes `Int` (with the overflow cases Go defines made explicit),
Go `float64` becomes an exact variant type `GoFloat` (finite values carried
as rationals; IEEE rounding of finite arithmetic is not modelled, and no
theorem below depends on a rounded finite value), and fallible code returns
an explicit result type.  Go runtime panics (integer division by zero,
slice bounds) are modelled as a distinguished outcome.
-/

/-- Error tags of the exception taxonomy (internal/types, `ErrorTag`). -/
inductive ErrorTag
  | authError
  | connectionError
  | httpError
  | indexError
  | keyError
  | parallelNestingError
  | recursionError
  | resourceLimitError
  | systemError
  | timeoutError
  | typeError
  | unhandledBranchError
  | valueError
  | zeroDivisionError
deriving DecidableEq, Repr

/-- Model of a Go `float64` as stored in the emulator's dynamic values.
Finite values are carried exactly as rationals; `posInf`, `negInf` and `nan`
model the IEEE special values produced by the operations below. -/
inductive GoFloat
  | fin (q : ℚ)
  | posInf
  | negInf
  | nan
deriving DecidableEq, Repr

/-- The emulator's dynamic value: the Go `any` values that flow through the
expression evaluator.  Go distinguishes a nil slice / map / func handle from
a non-nil (possibly empty) one, so nil handles get their own constructors. -/
inductive GoVal
  | vnull
  | vbool (b : Bool)
  | vint (n : ℤ)
  | vfloat (f : GoFloat)
  | vstr (s : String)
  | vlist (xs : List GoVal)
  | vnilList
  | vmap (entries : List (String × GoVal))
  | vnilMap
  | vfunc (name : String)
  | vnilFunc

/-- The nil test performed by `calculateBinaryOperation.execute` for the
operators `==` and `!=`: `left == nil`, or a value of a nilable reflect kind
(interface, pointer, map, slice, chan, func) whose `IsNil()` is true
(`nilableTypeSet` in the expression package). -/
def isNilShaped : GoVal → Bool
  | .vnull => true
  | .vnilList => true
  | .vnilMap => true
  | .vnilFunc => true
  | _ => false

/-- Result of executing an operation: a value, a tagged `*types.Error`, or a
Go runtime panic (the emulator performs Go integer division directly, so a
zero divisor crashes the process). -/
inductive ExecResult
  | ok (v : GoVal)
  | err (tag : ErrorTag)
  | runtimePanic

/-- Smallest `int64`. -/
def int64Min : ℤ := -(2 ^ 63)

/-- Largest `int64`. -/
def int64Max : ℤ := 2 ^ 63 - 1

/-- Go's `int64` quotient `a / b` for `b ≠ 0`: the quotient truncated toward
zero, except that `MinInt64 / -1` wraps to `MinInt64` (two's-complement
overflow, defined behaviour per the Go specification). -/
def goQuot (a b : ℤ) : ℤ :=
  if a = int64Min ∧ b = -1 then int64Min
  else a.sign * b.sign * ((a.natAbs / b.natAbs : ℕ) : ℤ)

/-- Go's `int64` remainder `a % b` for `b ≠ 0`: `a - (a/b)*b`, which in the
overflow case `MinInt64 % -1` is `0`. -/
def goRem (a b : ℤ) : ℤ :=
  if a = int64Min ∧ b = -1 then 0
  else a - goQuot a b * b

/-- Go's two's-complement wraparound for `int64` addition / subtraction /
multiplication results. -/
def wrapInt64 (x : ℤ) : ℤ := (x + 2 ^ 63) % 2 ^ 64 - 2 ^ 63

/-- Conversion `float64(n)` of an `int64`.  Modelled exactly (IEEE rounding
of integers above `2^53` is not modelled; no theorem uses such values). -/
def gfOfInt (n : ℤ) : GoFloat := .fin (n : ℚ)

/-- IEEE addition on the modelled floats (finite arithmetic exact). -/
def gfAdd : GoFloat → GoFloat → GoFloat
  | .nan, _ => .nan
  | _, .nan => .nan
  | .fin a, .fin b => .fin (a + b)
  | .posInf, .negInf => .nan
  | .negInf, .posInf => .nan
  | .posInf, _ => .posInf
  | _, .posInf => .posInf
  | .negInf, _ => .negInf
  | _, .negInf => .negInf

/-- IEEE subtraction on the modelled floats (finite arithmetic exact). -/
def gfSub : GoFloat → GoFloat → GoFloat
  | .nan, _ => .nan
  | _, .nan => .nan
  | .fin a, .fin b => .fin (a - b)
  | .posInf, .posInf => .nan
  | .negInf, .negInf => .nan
  | .posInf, _ => .posInf
  | .negInf, _ => .negInf
  | _, .posInf => .negInf
  | _, .negInf => .posInf

/-- IEEE multiplication on the modelled floats (finite arithmetic exact;
infinity times zero is NaN). -/
def gfMul : GoFloat → GoFloat → GoFloat
  | .nan, _ => .nan
  | _, .nan => .nan
  | .fin a, .fin b => .fin (a * b)
  | .posInf, .posInf => .posInf
  | .negInf, .negInf => .posInf
  | .posInf, .negInf => .negInf
  | .negInf, .posInf => .negInf
  | .posInf, .fin b => if b = 0 then .nan else if 0 < b then .posInf else .negInf
  | .fin a, .posInf => if a = 0 then .nan else if 0 < a then .posInf else .negInf
  | .negInf, .fin b => if b = 0 then .nan else if 0 < b then .negInf else .posInf
  | .fin a, .negInf => if a = 0 then .nan else if 0 < a then .negInf else .posInf

/-- IEEE division on the modelled floats: a nonzero finite value divided by
zero is a signed infinity, `0/0` is NaN (finite nonzero division exact; the
negative-zero distinction is not modelled). -/
def gfDiv : GoFloat → GoFloat → GoFloat
  | .nan, _ => .nan
  | _, .nan => .nan
  | .fin a, .fin b =>
      if b = 0 then (if a = 0 then .nan else if 0 < a then .posInf else .negInf)
      else .fin (a / b)
  | .posInf, .posInf => .nan
  | .posInf, .negInf => .nan
  | .negInf, .posInf => .nan
  | .negInf, .negInf => .nan
  | .posInf, .fin b => if b < 0 then .negInf else .posInf
  | .negInf, .fin b => if b < 0 then .posInf else .negInf
  | .fin _, .posInf => .fin 0
  | .fin _, .negInf => .fin 0

/-- IEEE equality (NaN compares unequal to everything, itself included). -/
def gfEq : GoFloat → GoFloat → Bool
  | .fin a, .fin b => a = b
  | .posInf, .posInf => true
  | .negInf, .negInf => true
  | _, _ => false

/-- IEEE strict order (false whenever an operand is NaN). -/
def gfLt : GoFloat → GoFloat → Bool
  | .fin a, .fin b => a < b
  | .fin _, .posInf => true
  | .negInf, .fin _ => true
  | .negInf, .posInf => true
  | _, _ => false

/-- IEEE non-strict order (false whenever an operand is NaN). -/
def gfLe (a b : GoFloat) : Bool := gfEq a b || gfLt a b

/-- Go's `math.Floor` on the modelled floats. -/
def gfFloor : GoFloat → GoFloat
  | .fin a => .fin ⌊a⌋
  | x => x

/-- Truncation of a rational toward zero (how Go converts float64 to an
integer type when the value is representable): the truncated quotient of
numerator by denominator. -/
def ratTrunc (q : ℚ) : ℤ := q.num.tdiv q.den

/-- Go conversion `int64(f)` of a float64.  For values outside the `int64`
range (including the infinities and NaN) the Go specification makes the
result implementation-dependent; we model the amd64 behaviour, which yields
`MinInt64`. -/
def gfToInt64 : GoFloat → ℤ
  | .fin a =>
      let t := ratTrunc a
      if t < int64Min ∨ int64Max < t then int64Min else t
  | _ => int64Min

/-- The `bool in []any` membership loop of `calculateBinaryOperation`:
true iff some element of the list is a `bool` equal to the left operand. -/
def boolInList (lhs : Bool) : List GoVal → Bool
  | [] => false
  | .vbool b :: rest => if lhs = b then true else boolInList lhs rest
  | _ :: rest => boolInList lhs rest

/-- The `string in []any` membership loop. -/
def strInList (lhs : String) : List GoVal → Bool
  | [] => false
  | .vstr s :: rest => if lhs = s then true else strInList lhs rest
  | _ :: rest => strInList lhs rest

/-- The `int64 in []any` membership loop. -/
def intInList (lhs : ℤ) : List GoVal → Bool
  | [] => false
  | .vint n :: rest => if lhs = n then true else intInList lhs rest
  | _ :: rest => intInList lhs rest

/-- The `float64 in []any` membership loop. -/
def floatInList (lhs : GoFloat) : List GoVal → Bool
  | [] => false
  | .vfloat f :: rest => if lhs = f then true else floatInList lhs rest
  | _ :: rest => floatInList lhs rest

/-- Key lookup in a `map[string]any` (the `string in map` branch). -/
def mapHasKey (k : String) : List (String × GoVal) → Bool
  | [] => false
  | (key, _) :: rest => if key = k then true else mapHasKey k rest

/-- Binary `int64 op int64` dispatch of `calculateBinaryOperation.execute`.
`/` promotes to float64; `//` and `%` perform Go integer division, which
panics at runtime when the divisor is zero. -/
def execIntInt (op : String) (lhs rhs : ℤ) : ExecResult :=
  if op = "==" then .ok (.vbool (lhs = rhs))
  else if op = "!=" then .ok (.vbool (lhs ≠ rhs))
  else if op = ">" then .ok (.vbool (rhs < lhs))
  else if op = ">=" then .ok (.vbool (rhs ≤ lhs))
  else if op = "<" then .ok (.vbool (lhs < rhs))
  else if op = "<=" then .ok (.vbool (lhs ≤ rhs))
  else if op = "+" then .ok (.vint (wrapInt64 (lhs + rhs)))
  else if op = "-" then .ok (.vint (wrapInt64 (lhs - rhs)))
  else if op = "*" then .ok (.vint (wrapInt64 (lhs * rhs)))
  else if op = "/" then .ok (.vfloat (gfDiv (gfOfInt lhs) (gfOfInt rhs)))
  else if op = "//" then (if rhs = 0 then .runtimePanic else .ok (.vint (goQuot lhs rhs)))
  else if op = "%" then (if rhs = 0 then .runtimePanic else .ok (.vint (goRem lhs rhs)))
  else .err .typeError

/-- Binary `float64 op float64` dispatch (also reached after widening an
`int64` operand): same operator set as `int64` minus `%`, with `//`
computed as `int64(math.Floor(lhs / rhs))`. -/
def execFloatFloat (op : String) (lhs rhs : GoFloat) : ExecResult :=
  if op = "==" then .ok (.vbool (gfEq lhs rhs))
  else if op = "!=" then .ok (.vbool (!gfEq lhs rhs))
  else if op = ">" then .ok (.vbool (gfLt rhs lhs))
  else if op = ">=" then .ok (.vbool (gfLe rhs lhs))
  else if op = "<" then .ok (.vbool (gfLt lhs rhs))
  else if op = "<=" then .ok (.vbool (gfLe lhs rhs))
  else if op = "+" then .ok (.vfloat (gfAdd lhs rhs))
  else if op = "-" then .ok (.vfloat (gfSub lhs rhs))
  else if op = "*" then .ok (.vfloat (gfMul lhs rhs))
  else if op = "/" then .ok (.vfloat (gfDiv lhs rhs))
  else if op = "//" then .ok (.vint (gfToInt64 (gfFloor (gfDiv lhs rhs))))
  else .err .typeError

/-- `calculateBinaryOperation.execute` after both operands have been
resolved to values: the nil special case for `==` / `!=`, then the
type-directed decision table. -/
def execBinOp (op : String) (left right : GoVal) : ExecResult :=
  if (op = "==" ∨ op = "!=") ∧ (isNilShaped left || isNilShaped right) then
    if op = "==" then .ok (.vbool (isNilShaped left && isNilShaped right))
    else .ok (.vbool (!(isNilShaped left && isNilShaped right)))
  else
    match left, right with
    | .vbool lhs, .vbool rhs =>
        if op = "==" then .ok (.vbool (lhs = rhs))
        else if op = "!=" then .ok (.vbool (lhs ≠ rhs))
        else if op = "or" then .ok (.vbool (lhs || rhs))
        else if op = "and" then .ok (.vbool (lhs && rhs))
        else .err .typeError
    | .vbool lhs, .vlist rhs =>
        if op = "in" then .ok (.vbool (boolInList lhs rhs)) else .err .typeError
    | .vbool _, _ => .err .typeError
    | .vstr lhs, .vstr rhs =>
        if op = "==" then .ok (.vbool (lhs = rhs))
        else if op = "!=" then .ok (.vbool (lhs ≠ rhs))
        else if op = "+" then .ok (.vstr (lhs ++ rhs))
        else .err .typeError
    | .vstr lhs, .vlist rhs =>
        if op = "in" then .ok (.vbool (strInList lhs rhs)) else .err .typeError
    | .vstr lhs, .vmap rhs =>
        if op = "in" then .ok (.vbool (mapHasKey lhs rhs)) else .err .typeError
    | .vstr _, _ => .err .typeError
    | .vint lhs, .vfloat rhs => execFloatFloat op (gfOfInt lhs) rhs
    | .vint lhs, .vint rhs => execIntInt op lhs rhs
    | .vint lhs, .vlist rhs =>
        if op = "in" then .ok (.vbool (intInList lhs rhs)) else .err .typeError
    | .vint _, _ => .err .typeError
    | .vfloat lhs, .vfloat rhs => execFloatFloat op lhs rhs
    | .vfloat lhs, .vint rhs => execFloatFloat op lhs (gfOfInt rhs)
    | .vfloat lhs, .vlist rhs =>
        if op = "in" then .ok (.vbool (floatInList lhs rhs)) else .err .typeError
    | .vfloat _, _ => .err .typeError
    | _, _ => .err .typeError

example : execBinOp "//" (.vint 7) (.vint 2) = .ok (.vint 3) := rfl
example : execBinOp "//" (.vint (-7)) (.vint 2) = .ok (.vint (-3)) := rfl
example : execBinOp "%" (.vint (-7)) (.vint 2) = .ok (.vint (-1)) := rfl
example : execBinOp "/" (.vint 1) (.vint 2) = .ok (.vfloat (.fin (1 / 2))) := rfl
example : execBinOp "==" .vnull .vnull = .ok (.vbool true) := rfl
example : execBinOp "==" (.vint 3) .vnull = .ok (.vbool false) := rfl

/-- Outcome of an anonymous step's `Execute`: a returned value together with
the next step name, an error, or a Go runtime panic. -/
inductive StepOutcome
  | ok (ret : GoVal) (next : String)
  | err
  | panicked

/-- One compiled arm of a `switch` step: the result of evaluating its
condition expression (`ev.EvaluateValue`) and the outcome of its sub-step. -/
structure SwitchArm where
  condResult : ExecResult
  step : StepOutcome

/-- `switchStep.Execute`: conditions are evaluated in order; an evaluation
error propagates; a successfully evaluated condition counts as a match only
when the comma-ok assertion `ret.(bool)` succeeds with value `true`; the
first match runs its sub-step and returns; with no match the default step
runs if present, else the step falls through returning `(nil, "")`. -/
def switchExecute : List SwitchArm → Option StepOutcome → StepOutcome
  | [], some d => d
  | [], none => .ok .vnull ""
  | arm :: rest, dflt =>
    match arm.condResult with
    | .ok (.vbool true) => arm.step
    | .ok _ => switchExecute rest dflt
    | .err _ => .err
    | .runtimePanic => .panicked

/-- One scope of the runtime symbol table (`types.SymbolTable`): a symbol
map and a read-only flag.  The `Parent` pointer chain is modelled as the
tail of a list of frames, current scope first. -/
structure Frame where
  symbols : List (String × GoVal)
  readOnly : Bool

/-- Go map membership `_, ok := m[k]`. -/
def assocHas {α : Type} : List (String × α) → String → Bool
  | [], _ => false
  | (k', _) :: rest, k => if k' = k then true else assocHas rest k

/-- Go map assignment `m[k] = v` (update the binding if present, else add). -/
def assocSet {α : Type} : List (String × α) → String → α → List (String × α)
  | [], k, v => [(k, v)]
  | (k', v') :: rest, k, v =>
      if k' = k then (k, v) :: rest else (k', v') :: assocSet rest k v

/-- The unexported `SymbolTable.set` helper: walking from the current scope
to the root, rebind `k` in the first scope that is writable and already
contains `k`; read-only scopes are passed over.  Returns the updated chain,
or `none` when no rebind happened. -/
def stSetAux : List Frame → String → GoVal → Option (List Frame)
  | [], _, _ => none
  | f :: rest, k, v =>
      if !f.readOnly && assocHas f.symbols k then
        some ({ f with symbols := assocSet f.symbols k v } :: rest)
      else
        (stSetAux rest k v).map (f :: ·)

/-- `SymbolTable.Set`: try the rebind walk; if it fails and the current
scope is read-only, panic (modelled as `.error`); otherwise create the
binding in the current scope. -/
def stSet (top : Frame) (parents : List Frame) (k : String) (v : GoVal) :
    Except String (List Frame) :=
  match stSetAux (top :: parents) k v with
  | some fs => .ok fs
  | none =>
      if top.readOnly then .error "Cannot assign to read only symbol table"
      else .ok ({ top with symbols := assocSet top.symbols k v } :: parents)

/-- Specification-side search: split the scope chain at the nearest scope
that is writable and contains `k`. -/
def nearestWritableSplit : List Frame → String → Option (List Frame × Frame × List Frame)
  | [], _ => none
  | f :: rest, k =>
      if !f.readOnly && assocHas f.symbols k then some ([], f, rest)
      else (nearestWritableSplit rest k).map (fun x => (f :: x.1, x.2.1, x.2.2))

theorem stSetAux_eq_split (fs : List Frame) (k : String) (v : GoVal) :
    stSetAux fs k v = (nearestWritableSplit fs k).map
      (fun x => x.1 ++ ({ x.2.1 with symbols := assocSet x.2.1.symbols k v } :: x.2.2)) := by
  induction fs with
  | nil => rfl
  | cons f rest ih =>
      unfold stSetAux nearestWritableSplit
      by_cases h : (!f.readOnly && assocHas f.symbols k) = true
      · simp [h]
      · simp only [h, if_neg, Bool.not_eq_true] at *
        simp only [ih, Option.map_map]
        congr 1

/-- Claim C2 (behaviour of the code at a zero divisor).  The evaluator has
no zero-divisor check: `int // 0` and `int % 0` execute Go's integer
division and crash with a runtime panic, `int / 0` is IEEE float division
yielding `+Inf`, and `float // 0` converts the infinite quotient to an
`int64`; no `ZeroDivisionError` is produced on any of these paths. -/
theorem claim_C2_division_by_zero_behavior :
    execBinOp "//" (.vint 1) (.vint 0) = .runtimePanic
    ∧ execBinOp "%" (.vint 1) (.vint 0) = .runtimePanic
    ∧ execBinOp "/" (.vint 1) (.vint 0) = .ok (.vfloat .posInf)
    ∧ execBinOp "//" (.vfloat (.fin 1)) (.vfloat (.fin 0)) = .ok (.vint int64Min) :=
  ⟨rfl, rfl, rfl, rfl⟩

/-- Claim C3 (behaviour of the code on floor division).  Two `int64`
operands are divided with Go's `/`, which truncates toward zero: `-7 // 2`
evaluates to `-3`, not the floor `-4` the claim states — although the
float branches of the same operator do apply `math.Floor`, so
`-7.0 // 2` evaluates to `-4`. -/
theorem claim_C3_floor_division_counterexample :
    execBinOp "//" (.vint (-7)) (.vint 2) = .ok (.vint (-3))
    ∧ Int.fdiv (-7) 2 = -4
    ∧ execBinOp "//" (.vfloat (.fin (-7))) (.vint 2) = .ok (.vint (-4)) := by
  refine ⟨rfl, rfl, ?_⟩
  norm_num [execBinOp, execFloatFloat, gfOfInt, gfDiv, gfFloor, gfToInt64,
    ratTrunc, int64Min, int64Max]
  rfl

/-- Claim C6: null equality.  `null == null` is true; `x == null` is false
for every non-nil-shaped `x`; `x != null` is true exactly when `x` is not
nil-shaped (nil-shaped covers null and nil function / map / list handles);
symmetrically for `null == x`.  A function call returning Go `nil` reaches
the operator as the `null` value, so the same result applies. -/
theorem claim_C6_null_equality (x : GoVal) :
    execBinOp "==" .vnull .vnull = .ok (.vbool true)
    ∧ (isNilShaped x = false → execBinOp "==" x .vnull = .ok (.vbool false))
    ∧ execBinOp "!=" x .vnull = .ok (.vbool (!isNilShaped x))
    ∧ execBinOp "==" .vnull x = .ok (.vbool (isNilShaped x)) := by
  refine ⟨rfl, fun h => ?_, ?_, ?_⟩
  · cases x <;> first | rfl | exact Bool.noConfusion h
  · cases x <;> rfl
  · cases x <;> rfl

/-- Witness for C6 at the concrete non-nil value `5`. -/
theorem claim_C6_null_equality_witness :
    execBinOp "==" (.vint 5) .vnull = .ok (.vbool false) :=
  (claim_C6_null_equality (.vint 5)).2.1 rfl

/-- Claim C10: in a `switch` step, a condition that evaluates without error
to a non-boolean value is simply not a match — the arm is skipped and
evaluation proceeds with the remaining arms and the default, with no
TypeError raised. -/
theorem claim_C10_switch_nonbool_condition (v : GoVal) (s : StepOutcome)
    (rest : List SwitchArm) (dflt : Option StepOutcome)
    (h : ∀ b, v ≠ .vbool b) :
    switchExecute (⟨.ok v, s⟩ :: rest) dflt = switchExecute rest dflt := by
  cases v with
  | vbool b => exact absurd rfl (h b)
  | _ => rfl

/-- Witness for C10: an integer-valued condition falls through to the
implicit empty outcome. -/
theorem claim_C10_switch_nonbool_condition_witness :
    switchExecute (⟨.ok (.vint 1), .ok (.vstr "taken") "next"⟩ :: []) none
      = .ok .vnull "" :=
  claim_C10_switch_nonbool_condition (.vint 1) (.ok (.vstr "taken") "next") [] none
    (fun _ h => GoVal.noConfusion h)

/-- Claim C9 (amended): `Set` rebinds `k` in the nearest *writable* scope
already containing `k`, passing over read-only scopes even when they
contain `k`; if no writable scope contains `k`, the binding is created in
the current scope when it is writable (which can shadow a read-only
binding), and only when the current scope itself is read-only does the
operation fail fatally, creating no binding. -/
theorem claim_C9_set_nearest_writable (top : Frame) (parents : List Frame)
    (k : String) (v : GoVal) :
    (∀ pre g post, nearestWritableSplit (top :: parents) k = some (pre, g, post) →
        stSet top parents k v
          = .ok (pre ++ ({ g with symbols := assocSet g.symbols k v } :: post)))
    ∧ (nearestWritableSplit (top :: parents) k = none → top.readOnly = false →
        stSet top parents k v
          = .ok ({ top with symbols := assocSet top.symbols k v } :: parents))
    ∧ (nearestWritableSplit (top :: parents) k = none → top.readOnly = true →
        ∀ fs, stSet top parents k v ≠ .ok fs) := by
  refine ⟨fun pre g post h => ?_, fun h hro => ?_, fun h hro fs => ?_⟩
  · unfold stSet
    rw [stSetAux_eq_split, h]
    rfl
  · unfold stSet
    rw [stSetAux_eq_split, h]
    simp [hro]
  · unfold stSet
    rw [stSetAux_eq_split, h]
    simp [hro]

/-- Witness for amended C9: rebinding in the (writable) current scope. -/
theorem claim_C9_set_nearest_writable_witness :
    stSet ⟨[("a", .vint 0)], false⟩ [] "a" (.vint 7)
      = .ok [⟨[("a", .vint 7)], false⟩] :=
  (claim_C9_set_nearest_writable ⟨[("a", .vint 0)], false⟩ [] "a" (.vint 7)).1
    [] ⟨[("a", .vint 0)], false⟩ [] rfl

/-- Counterexample to C9 as stated: with a writable empty current scope
whose read-only parent contains `k`, the nearest scope containing `k` is
the read-only parent, so the claim predicts a rebind there or a fatal
failure; the code instead silently creates a shadowing binding in the
current scope, leaving the parent binding untouched. -/
theorem claim_C9_counterexample :
    stSet ⟨[], false⟩ [⟨[("k", .vint 1)], true⟩] "k" (.vint 2)
      = .ok [⟨[("k", .vint 2)], false⟩, ⟨[("k", .vint 1)], true⟩] := rfl

/-- A compiled reference chain.  `retrieveFieldOperation.execute` lowers a
string-valued field expression to a `fieldReference` (this covers both the
`.name` form and the `["name"]` index form, since the parser turns a field
symbol into a string literal) and a non-negative `int64` field expression
to an `indexReference`. -/
inductive RefChain
  | sym (name : String)
  | field (context : RefChain) (name : String)
  | index (context : RefChain) (idx : ℤ)

/-- The characters `fieldReference.resolvePath` passes to
`strings.ContainsAny` (a Go raw string whose doubled backslash denotes two
backslashes) together with tab and newline: a key containing any of them is
rendered in quoted-bracket form, any other key in dot form. -/
def fieldSpecialChars : List Char :=
  ['.', ' ', ',', '+', '-', '*', '/', '%', '"', '\\',
   '!', '=', '>', '<', '(', ')', '[', ']', '\t', '\n']

/-- `strings.ContainsAny(name, fieldSpecialChars)`. -/
def fieldNeedsQuote (name : String) : Bool :=
  name.data.any (fun c => fieldSpecialChars.contains c)

/-- The fragment of `strconv.Quote` reachable from field keys: characters
are emitted verbatim with quote and backslash escaped and tab / newline as
their short escapes (full unicode escaping is never exercised by the
theorems below). -/
def goQuoteChar : Char → List Char
  | '"' => ['\\', '"']
  | '\\' => ['\\', '\\']
  | '\t' => ['\\', 't']
  | '\n' => ['\\', 'n']
  | c => [c]

/-- Go `strconv.Quote`, restricted as in `goQuoteChar`. -/
def goQuote (s : String) : String :=
  "\"" ++ String.mk (s.data.map goQuoteChar).flatten ++ "\""

/-- The diagnostic path of a reference chain: `symbolReference` contributes
its bare name, `fieldReference.resolvePath` appends `.name` or
`["name"]` depending on `strings.ContainsAny`, and
`indexReference.resolvePath` appends `[i]`. -/
def resolvePath : RefChain → String
  | .sym n => n
  | .field c n =>
      resolvePath c ++ (if fieldNeedsQuote n then "[" ++ goQuote n ++ "]" else "." ++ n)
  | .index c i => resolvePath c ++ "[" ++ toString i ++ "]"


/-- Claim C7 counterexample: the chain `sym.f["k"][3]` resolves to the
diagnostic path `sym.f.k[3]` — the identifier-like key `"k"` contains no
special character, so it is rendered in dot form, not as `["k"]`. -/
theorem claim_C7_path_counterexample :
    resolvePath (.index (.field (.field (.sym "sym") "f") "k") 3) = "sym.f.k[3]"
    ∧ (("sym.f.k[3]" : String) == "sym.f[\"k\"][3]") = false := by
  constructor
  · decide
  · decide

/-- Claim C7 (amended): for a chain of root symbol, field, plain
identifier-like key (no character from the quoting set) and non-negative
index, the diagnostic path renders every key in dot form:
`root.f.k[n]`.  The bracket-quoted form appears only for keys containing a
special character. -/
theorem claim_C7_path_plain_key (root f k : String) (n : ℕ)
    (hf : fieldNeedsQuote f = false) (hk : fieldNeedsQuote k = false) :
    resolvePath (.index (.field (.field (.sym root) f) k) (n : ℤ))
      = root ++ "." ++ f ++ "." ++ k ++ "[" ++ toString (n : ℤ) ++ "]" := by
  simp [resolvePath, hf, hk, String.append_assoc]

/-- Witness for amended C7 at the chain `sym.f["k"][3]`. -/
theorem claim_C7_path_plain_key_witness :
    resolvePath (.index (.field (.field (.sym "sym") "f") "k") ((3 : ℕ) : ℤ))
      = "sym" ++ "." ++ "f" ++ "." ++ "k" ++ "[" ++ toString ((3 : ℕ) : ℤ) ++ "]" :=
  claim_C7_path_plain_key "sym" "f" "k" 3 (by decide) (by decide)

/-- The delay update performed after each retry sleep in `tryStep.execute`:
`retry.delay = time.Duration(float64(retry.delay) * multiplier)` followed by
the cap `if retry.delay > maxDelay { retry.delay = maxDelay }`.  Durations
are `int64` nanosecond counts; the float multiplication is modelled exactly
over the rationals (exact at every input used below) and the conversion
back to `time.Duration` truncates toward zero. -/
def nextDelay (delay : ℤ) (multiplier : ℚ) (maxDelay : ℤ) : ℤ :=
  let d := ratTrunc ((delay : ℚ) * multiplier)
  if maxDelay < d then maxDelay else d

/-- `tryStep.execute` specialised to a perpetually failing inner step and a
retry predicate that always returns true: the inner step runs, fails, and
while `restRetries > 0` the executor sleeps the current delay, applies
`nextDelay`, decrements `restRetries` and re-executes.  The result counts
the executions of the inner step and lists the sleep durations in order. -/
def tryRun (restRetries : ℕ) (delay : ℤ) (multiplier : ℚ) (maxDelay : ℤ) :
    ℕ × List ℤ :=
  match restRetries with
  | 0 => (1, [])
  | r + 1 =>
      let res := tryRun r (nextDelay delay multiplier maxDelay) multiplier maxDelay
      (res.1 + 1, delay :: res.2)

/-- Claim C4 (amended): with `max_retries = 3`, an always-true predicate and
a perpetually failing body, the body executes exactly 4 times; the sleeps
are `d`, `trunc(d·m)` and `min(trunc(trunc(d·m)·m), M)` — the cap at
`max_delay` is applied after every multiplication, so under the stated
hypothesis `trunc(d·m) ≤ M` the first two sleeps match the claim and the
third carries the cap. -/
theorem claim_C4_retry_four_runs_capped_backoff (d : ℤ) (m : ℚ) (M : ℤ)
    (hcap : ratTrunc ((d : ℚ) * m) ≤ M) :
    tryRun 3 d m M
      = (4, [d, ratTrunc ((d : ℚ) * m),
             min (ratTrunc ((ratTrunc ((d : ℚ) * m) : ℚ) * m)) M]) := by
  have h2 : ∀ x : ℤ, nextDelay x m M = min (ratTrunc ((x : ℚ) * m)) M := by
    intro x
    unfold nextDelay
    dsimp only
    split <;> omega
  have h1 : nextDelay d m M = ratTrunc ((d : ℚ) * m) := by
    rw [h2]
    omega
  show (4, [d, nextDelay d m M,
            nextDelay (nextDelay d m M) m M]) = _
  rw [h1, h2]

theorem ratTrunc_intCast (n : ℤ) : ratTrunc ((n : ℤ) : ℚ) = n := by
  simp [ratTrunc, Rat.num_intCast, Rat.den_intCast]

/-- Witness for amended C4: seconds-scale durations `d = 10`, `m = 2`,
`M = 60` give 4 executions and sleeps `10, 20, 40`. -/
theorem claim_C4_retry_four_runs_capped_backoff_witness :
    tryRun 3 10 2 60 = (4, [10, 20, 40]) := by
  have e1 : (((10 : ℤ) : ℚ)) * 2 = ((20 : ℤ) : ℚ) := by norm_num
  have e2 : (((20 : ℤ) : ℚ)) * 2 = ((40 : ℤ) : ℚ) := by norm_num
  have h := claim_C4_retry_four_runs_capped_backoff 10 2 60
    (by rw [e1, ratTrunc_intCast]; norm_num)
  rw [h, e1, ratTrunc_intCast, e2, ratTrunc_intCast]
  have : min (40 : ℤ) 60 = 40 := by omega
  rw [this]

/-- Counterexample to C4 as stated: with `d = 10`, `m = 10`, `M = 50` the
code sleeps `10, 50, 50` — the second sleep is already capped at
`max_delay` — whereas the claimed schedule `d, d·m, min(d·m·m, M)` is
`10, 100, 50`. -/
theorem claim_C4_backoff_counterexample :
    tryRun 3 10 10 50 = (4, [10, 50, 50])
    ∧ ([(10 : ℤ), 10 * 10, min (10 * 10 * 10) 50]) = [10, 100, 50] := by
  have n1 : nextDelay 10 10 50 = 50 := by
    unfold nextDelay
    rw [show ((10 : ℤ) : ℚ) * 10 = ((100 : ℤ) : ℚ) by norm_num, ratTrunc_intCast]
    norm_num
  have n2 : nextDelay 50 10 50 = 50 := by
    unfold nextDelay
    rw [show ((50 : ℤ) : ℚ) * 10 = ((500 : ℤ) : ℚ) by norm_num, ratTrunc_intCast]
    norm_num
  constructor
  · show (4, [10, nextDelay 10 10 50, nextDelay (nextDelay 10 10 50) 10 50])
        = (4, [10, 50, 50])
    rw [n1, n2]
  · have : min (10 * 10 * 10 : ℤ) 50 = 50 := by omega
    rw [this]
    norm_num

/-- The inherited-variables map built by `forStep.executeInParallel` before
spawning tasks: every symbol visible in the (cloned) parent table is entered
with the value `false`, then the root symbol of every path listed under
`parallel.shared` is set to `true` (and its variable is replaced by a
`SharedVariable` handle). -/
def mkInheritedShared (visible sharedRoots : List String) : List (String × Bool) :=
  sharedRoots.foldl (fun m root => assocSet m root true)
    (visible.map (fun k => (k, false)))

/-- The per-assignment guard of `assignStep.Execute` when an
inherited-variables map is installed (i.e. inside a parallel step): the Go
code checks `_, inherited := inheritedVariables.Shared[rootSym]` — mere
presence of the root symbol in the map, discarding the boolean that
distinguishes shared from unshared roots — and rejects the assignment with
the parallel-step error when the symbol is present; otherwise the write
proceeds through the symbol table. -/
def assignOneInParallel (sharedMap : List (String × Bool)) (top : Frame)
    (parents : List Frame) (rootSym : String) (v : GoVal) :
    Except String (List Frame) :=
  if assocHas sharedMap rootSym then
    .error "cannot assign to non-shared variable in parallel step"
  else stSet top parents rootSym v

/-- Claim C1 (behaviour of the code).  With visible symbols `counter, x` and
`parallel.shared = [counter]`, the inherited map holds `counter ↦ true` and
`x ↦ false`; an assignment to the SHARED root `counter` is nevertheless
rejected with "cannot assign to non-shared variable in parallel step"
(so the claimed `initial + N` outcome is unreachable), the assignment to
the visible unshared `x` is rejected with the same error (the half of the
claim the code does satisfy), and only a symbol not visible before the
parallel step can be assigned. -/
theorem claim_C1_parallel_assign_rejects_shared :
    mkInheritedShared ["counter", "x"] ["counter"]
      = [("counter", true), ("x", false)]
    ∧ assignOneInParallel (mkInheritedShared ["counter", "x"] ["counter"])
        ⟨[("counter", .vint 0)], false⟩ [] "counter" (.vint 1)
        = .error "cannot assign to non-shared variable in parallel step"
    ∧ assignOneInParallel (mkInheritedShared ["counter", "x"] ["counter"])
        ⟨[("x", .vint 0)], false⟩ [] "x" (.vint 1)
        = .error "cannot assign to non-shared variable in parallel step"
    ∧ assignOneInParallel (mkInheritedShared ["counter", "x"] ["counter"])
        ⟨[], false⟩ [] "fresh" (.vint 1)
        = .ok [⟨[("fresh", .vint 1)], false⟩] :=
  ⟨rfl, rfl, rfl, rfl⟩

/-- Go reflect kinds relevant to `argDef.getDefaultValue`.  A Go `[]any`
list value has kind Slice (kind Array is the fixed-size array type, which
never occurs as a dynamic value); a `map[string]any` has kind Map. -/
inductive GoKind
  | kBool
  | kInt
  | kFloat
  | kString
  | kSlice
  | kArray
  | kMap
  | kFunc
  | kInterface
deriving DecidableEq

/-- A registered default value as seen through reflection.  Slice and map
payloads live in an explicit heap so that aliasing between calls is
observable. -/
inductive HVal
  | scalar (v : GoVal)
  | slice (addr : ℕ)
  | hmap (addr : ℕ)

/-- The heap backing slice and map values: an address is an index. -/
structure Heap where
  slices : List (List HVal)
  maps : List (List (String × HVal))

/-- `reflect.Value.Kind()` of a default value. -/
def kindOfH : HVal → GoKind
  | .scalar (.vbool _) => .kBool
  | .scalar (.vint _) => .kInt
  | .scalar (.vfloat _) => .kFloat
  | .scalar (.vstr _) => .kString
  | .scalar _ => .kInterface
  | .slice _ => .kSlice
  | .hmap _ => .kMap

/-- Allocate a slice cell, returning its address. -/
def heapAllocSlice (h : Heap) (xs : List HVal) : Heap × ℕ :=
  ({ h with slices := h.slices ++ [xs] }, h.slices.length)

/-- Allocate a map cell, returning its address. -/
def heapAllocMap (h : Heap) (m : List (String × HVal)) : Heap × ℕ :=
  ({ h with maps := h.maps ++ [m] }, h.maps.length)

/-- `argDef.deepClone` on the kinds it is invoked on: a fresh cell is
allocated and the entries are copied.  (The source clones entries
recursively; the registered defaults exercised here have scalar entries,
for which the recursive clone is the identity, so one level of copying is
the faithful image.) -/
def deepCloneH (h : Heap) (v : HVal) : Heap × HVal :=
  match v with
  | .slice a =>
      let out := heapAllocSlice h (h.slices.getD a [])
      (out.1, .slice out.2)
  | .hmap a =>
      let out := heapAllocMap h (h.maps.getD a [])
      (out.1, .hmap out.2)
  | s => (h, s)

/-- `argDef.getDefaultValue` for non-pointer-adapted defaults: the value is
deep-cloned only when its reflect kind is Array or Map (the `switch
d.defaultValue.Kind()` in the source); every other kind — including Slice,
the kind of an actual Go list default — is returned as-is. -/
def getDefaultValue (h : Heap) (d : HVal) : Heap × HVal :=
  match kindOfH d with
  | .kArray => deepCloneH h d
  | .kMap => deepCloneH h d
  | _ => (h, d)

/-- In-place mutation of one slice element through a value handed to a
callee (`args[i] = ...` style writes inside the native function). -/
def heapWriteSlice (h : Heap) (a i : ℕ) (x : HVal) : Heap :=
  { h with slices := h.slices.set a ((h.slices.getD a []).set i x) }

/-- What a call reads through a slice value. -/
def heapReadSlice (h : Heap) (a : ℕ) : List HVal := h.slices.getD a []

/-- Claim C5 (behaviour of the code).  A list default (kind Slice) is
returned without cloning — both calls receive the registered default's own
cell, so an element written during the first call is read back by the
second call, and the registered default itself has changed; a map default
(kind Map), by contrast, is cloned to a fresh address. -/
theorem claim_C5_list_default_not_cloned :
    (getDefaultValue ⟨[[.scalar (.vint 1)]], []⟩ (.slice 0)).2 = .slice 0
    ∧ (getDefaultValue ⟨[[.scalar (.vint 1)]], []⟩ (.slice 0)).1.slices
        = [[.scalar (.vint 1)]]
    ∧ heapReadSlice
        (heapWriteSlice ⟨[[.scalar (.vint 1)]], []⟩ 0 0 (.scalar (.vint 99))) 0
        = [.scalar (.vint 99)]
    ∧ (getDefaultValue
        (heapWriteSlice ⟨[[.scalar (.vint 1)]], []⟩ 0 0 (.scalar (.vint 99)))
        (.slice 0)).2 = .slice 0
    ∧ (getDefaultValue ⟨[], [[("a", .scalar (.vint 1))]]⟩ (.hmap 0)).2 = .hmap 1 :=
  ⟨rfl, rfl, rfl, rfl, rfl⟩

/-- Result of a `text.find_all` run: the returned index list, a Go runtime
panic (slice bounds out of range), or exhausted recursion fuel (never
reached at the inputs used below). -/
inductive FindAllResult
  | ok (indexes : List ℕ)
  | panicked
  | fuelOut
deriving DecidableEq

/-- `strings.Index`: offset of the first occurrence of `sub` in `s`, or
`none` (Go returns -1).  Strings are modelled as character lists; at the
ASCII inputs used below Go's byte offsets coincide with character
positions. -/
def goIndex (sub : List Char) : List Char → Option ℕ
  | [] => if sub.isPrefixOf ([] : List Char) then some 0 else none
  | c :: t =>
      if sub.isPrefixOf (c :: t) then some 0
      else (goIndex sub t).map (· + 1)

/-- The loop of `text.find_all` as written: the guard evaluates
`len(source[offset:])`, which panics when `offset` exceeds the source
length; the search is `strings.Index(source, substr)` over the WHOLE
source — the offset is not applied to the haystack — then `offset+i` is
recorded and `offset` advances by `i + len(substr)`. -/
def findAllGoLoop (source sub : List Char) : ℕ → ℕ → List ℕ → FindAllResult
  | 0, _, _ => .fuelOut
  | fuel + 1, offset, acc =>
      if source.length < offset then .panicked
      else if source.length - offset = 0 then .ok acc
      else
        match goIndex sub source with
        | none => .ok acc
        | some i => findAllGoLoop source sub fuel (offset + i + sub.length) (acc ++ [offset + i])

/-- `text.find_all(source, substr)`: the loop starting at offset 0 with an
empty index list.  For a non-empty `substr` the offset grows by at least
one per iteration, so `length + 1` units of fuel cover every run. -/
def findAllGo (source sub : List Char) : FindAllResult :=
  findAllGoLoop source sub (source.length + 1) 0 []

/-- Progressive search as the specification prescribes it for
`text.find_all`: each search scans `source[offset:]` and resumes just past
the end of the previous match. -/
def findAllProgressiveLoop (source sub : List Char) : ℕ → ℕ → List ℕ
  | 0, _ => []
  | fuel + 1, offset =>
      match goIndex sub (source.drop offset) with
      | none => []
      | some i => (offset + i) :: findAllProgressiveLoop source sub fuel (offset + i + sub.length)

/-- The progressive `find_all` of the specification. -/
def findAllProgressive (source sub : List Char) : List ℕ :=
  findAllProgressiveLoop source sub (source.length + 1) 0

/-- Claim C8 (behaviour of the code).  `find_all("axa", "a")` returns
`[0, 1, 2]` — the second iteration re-finds the match at the start of the
whole source and records `offset + 0 = 1`, which is not an occurrence —
while the progressive semantics give `[0, 2]`; and `find_all("xaa", "a")`
records `[1, 3]` and then panics on the out-of-range slice
`source[4:]`, while the progressive semantics give `[1, 2]`. -/
theorem claim_C8_find_all_not_progressive :
    findAllGo "axa".data "a".data = .ok [0, 1, 2]
    ∧ findAllProgressive "axa".data "a".data = [0, 2]
    ∧ findAllGo "xaa".data "a".data = .panicked
    ∧ findAllProgressive "xaa".data "a".data = [1, 2] := by
  refine ⟨by decide, by decide, by decide, by decide⟩
